import Mathlib

/-!
Verification of the libArchStatic archive engine (src/main.cpp) against its
natural-language specification.  The C++ program packs a directory tree into a
tar.gz container through libarchive and restores it; the definitions below are
a shallow embedding of the functions of src/main.cpp (permsToMode, addFile,
packDirectory, unpackArchive, main) together with the interface behaviour of
the external collaborators the spec fixes in its section 6 (the archive codec
and the host filesystem).
-/

namespace ArchStatic

/-! ## Permission mapper (src/main.cpp lines 50-62)

`fs::perms` and the POSIX `mode_t` constants use the same numeric bit values
(owner read = 0o400, ..., others exec = 0o001), so both sides are embedded as
natural-number bit masks.  The definition mirrors the source statement by
statement: one conditional bitwise-or per permission fact. -/

def permsToMode (p : Nat) : Nat :=
  let m0 : Nat := 0
  let m1 := if p &&& 0o400 ≠ 0 then m0 ||| 0o400 else m0
  let m2 := if p &&& 0o200 ≠ 0 then m1 ||| 0o200 else m1
  let m3 := if p &&& 0o100 ≠ 0 then m2 ||| 0o100 else m2
  let m4 := if p &&& 0o040 ≠ 0 then m3 ||| 0o040 else m3
  let m5 := if p &&& 0o020 ≠ 0 then m4 ||| 0o020 else m4
  let m6 := if p &&& 0o010 ≠ 0 then m5 ||| 0o010 else m5
  let m7 := if p &&& 0o004 ≠ 0 then m6 ||| 0o004 else m6
  let m8 := if p &&& 0o002 ≠ 0 then m7 ||| 0o002 else m7
  if p &&& 0o001 ≠ 0 then m8 ||| 0o001 else m8

theorem and_mask_mod (p b n : Nat) (h : b < n) :
    p % 2 ^ n &&& 2 ^ b = p &&& 2 ^ b := by
  rw [Nat.and_two_pow, Nat.and_two_pow, Nat.testBit_mod_two_pow]
  simp [h]

theorem permsToMode_mod (p : Nat) : permsToMode p = permsToMode (p % 512) := by
  have h8 : p % 512 &&& 256 = p &&& 256 := by
    simpa using and_mask_mod p 8 9 (by norm_num)
  have h7 : p % 512 &&& 128 = p &&& 128 := by
    simpa using and_mask_mod p 7 9 (by norm_num)
  have h6 : p % 512 &&& 64 = p &&& 64 := by
    simpa using and_mask_mod p 6 9 (by norm_num)
  have h5 : p % 512 &&& 32 = p &&& 32 := by
    simpa using and_mask_mod p 5 9 (by norm_num)
  have h4 : p % 512 &&& 16 = p &&& 16 := by
    simpa using and_mask_mod p 4 9 (by norm_num)
  have h3 : p % 512 &&& 8 = p &&& 8 := by
    simpa using and_mask_mod p 3 9 (by norm_num)
  have h2 : p % 512 &&& 4 = p &&& 4 := by
    simpa using and_mask_mod p 2 9 (by norm_num)
  have h1 : p % 512 &&& 2 = p &&& 2 := by
    simpa using and_mask_mod p 1 9 (by norm_num)
  have h0 : p % 512 &&& 1 = p &&& 1 := by
    simpa using and_mask_mod p 0 9 (by norm_num)
  unfold permsToMode
  rw [h8, h7, h6, h5, h4, h3, h2, h1, h0]

set_option maxRecDepth 8000 in
theorem permsToMode_fin : ∀ x : Fin 512, permsToMode x.val = x.val := by decide

theorem permsToMode_eq_mod (p : Nat) : permsToMode p = p % 512 := by
  rw [permsToMode_mod]
  exact permsToMode_fin ⟨p % 512, Nat.mod_lt _ (by norm_num)⟩

/-- C9.  The permission mapper is pure (a plain function on bit masks); it
keeps exactly the nine owner/group/other rwx bits of its input, leaves every
higher mode bit (setuid, setgid, sticky, type bits) at zero, is bounded by
octal 0777, and depends only on the nine rwx facts of its input. -/
theorem c9_permission_mapper (p : Nat) :
    permsToMode p ≤ 0o777 ∧
    (∀ i, i < 9 → (permsToMode p).testBit i = p.testBit i) ∧
    (∀ i, 9 ≤ i → (permsToMode p).testBit i = false) ∧
    (∀ q, (∀ i, i < 9 → q.testBit i = p.testBit i) → permsToMode q = permsToMode p) := by
  have hmod : (512 : Nat) = 2 ^ 9 := by norm_num
  refine ⟨?_, ?_, ?_, ?_⟩
  · rw [permsToMode_eq_mod]
    have := Nat.mod_lt p (show 0 < 512 by norm_num)
    omega
  · intro i hi
    rw [permsToMode_eq_mod, hmod, Nat.testBit_mod_two_pow]
    simp [hi]
  · intro i hi
    rw [permsToMode_eq_mod, hmod, Nat.testBit_mod_two_pow]
    simp
    omega
  · intro q hq
    rw [permsToMode_eq_mod, permsToMode_eq_mod]
    rw [hmod]
    apply Nat.eq_of_testBit_eq
    intro i
    rw [Nat.testBit_mod_two_pow, Nat.testBit_mod_two_pow]
    by_cases h : i < 9
    · simp [h, hq i h]
    · simp [h]

theorem c9_permission_mapper_witness : permsToMode 0o4755 ≤ 0o777 :=
  (c9_permission_mapper 0o4755).1

/-! ## Path handling on unpack (src/main.cpp lines 204-220)

The loop body of `unpackArchive` reads the stored entry path and computes the
extraction path `destDir / relPath`.  Under `_WIN32` it first strips a
verbatim `\\?\` marker, a drive designator in the second character, and all
leading separators; outside `_WIN32` the stored path is joined unchanged.
Paths are embedded as character lists (the `std::string` contents); the
`std::filesystem::path::operator/` semantics of the host filesystem
collaborator follow the C++ standard. -/

def isSepChar (c : Char) : Bool := c = '\\' || c = '/'

def verbatimMarker : List Char := ['\\', '\\', '?', '\\']

/-- The `#ifdef _WIN32` normalization of the stored entry path
(src/main.cpp lines 206-210): strip a leading `\\?\` marker, then a drive
designator `X:` detected at index 1, then every leading separator. -/
def normalizeEntryPathWin (s : List Char) : List Char :=
  let s1 := if s.take 4 = verbatimMarker then s.drop 4 else s
  let s2 := if s1[1]? = some ':' then s1.drop 2 else s1
  s2.dropWhile isSepChar

/-- std::filesystem operator/ on a POSIX host: an absolute right operand
replaces the left operand entirely; otherwise the right operand is appended
behind a separator.  Modelled from the spec: host filesystem collaborator
behaviour of section 6. -/
def posixJoin (dest p : List Char) : List Char :=
  if p.head? = some '/' then p
  else if dest = [] then p
  else if dest.getLast? = some '/' then dest ++ p
  else dest ++ '/' :: p

/-- Root name of a path under Windows rules: a drive designator `X:`, or a
UNC server prefix introduced by two separators. -/
def winRootName (p : List Char) : List Char :=
  match p with
  | a :: b :: rest =>
    if b = ':' then [a, ':']
    else if isSepChar a ∧ isSepChar b then
      match rest with
      | [] => []
      | c :: _ => if isSepChar c then [] else a :: b :: rest.takeWhile (fun d => ! isSepChar d)
    else []
  | _ => []

def winAfterRoot (p : List Char) : List Char := p.drop (winRootName p).length

def winHasRootDir (p : List Char) : Bool :=
  match (winAfterRoot p).head? with
  | some c => isSepChar c
  | none => false

def winIsAbsolute (p : List Char) : Bool :=
  decide (winRootName p ≠ []) && winHasRootDir p

/-- std::filesystem operator/ on a Windows host: an absolute right operand, or
one with a different root name, replaces the left operand; a right operand
with a root directory keeps only the left root name; otherwise the right
operand's relative part is appended behind a separator.  Modelled from the
spec: host filesystem collaborator behaviour of section 6. -/
def winJoin (dest p : List Char) : List Char :=
  if winIsAbsolute p then p
  else if winRootName p ≠ [] ∧ winRootName p ≠ winRootName dest then p
  else if winHasRootDir p then winRootName dest ++ winAfterRoot p
  else
    match dest.getLast? with
    | none => winAfterRoot p
    | some c => if isSepChar c then dest ++ winAfterRoot p else dest ++ '\\' :: winAfterRoot p

/-- Extraction path computed by the unpack loop in a Windows build. -/
def fullPathWin (dest rel : List Char) : List Char :=
  winJoin dest (normalizeEntryPathWin rel)

/-- Extraction path computed by the unpack loop in a POSIX build: the stored
path is joined with no stripping at all. -/
def fullPathPosix (dest rel : List Char) : List Char :=
  posixJoin dest rel

/-- Lexical containment under the destination root, POSIX rendering. -/
def underRoot (dest p : List Char) : Bool := (dest ++ ['/']).isPrefixOf p

/-- Lexical containment under the destination root, Windows rendering. -/
def underRootWin (dest p : List Char) : Bool := (dest ++ ['\\']).isPrefixOf p

/-- C1 counterexample.  In a POSIX build nothing is stripped: the stored entry
path "/etc/passwd" (which contains a leading separator) makes operator/
discard the destination root "/dest" entirely, so the computed extraction path
lies outside the destination root. -/
theorem c1_counterexample :
    fullPathPosix ("/dest".data) ("/etc/passwd".data) = "/etc/passwd".data ∧
    underRoot ("/dest".data) (fullPathPosix ("/dest".data) ("/etc/passwd".data)) = false := by
  decide

theorem dropWhile_head_not {α : Type} (p : α → Bool) (l : List α) :
    ∀ c, (l.dropWhile p).head? = some c → p c = false := by
  induction l with
  | nil => intro c h; simp [List.dropWhile] at h
  | cons a t ih =>
    intro c h
    rw [List.dropWhile_cons] at h
    by_cases hp : p a
    · rw [if_pos hp] at h
      exact ih c h
    · rw [if_neg hp] at h
      simp at h
      rw [← h]
      simpa using hp

theorem normalizeEntryPathWin_head (rel : List Char) :
    ∀ c, (normalizeEntryPathWin rel).head? = some c → isSepChar c = false := by
  intro c h
  exact dropWhile_head_not isSepChar _ c h

theorem winRootName_eq_nil (q : List Char)
    (hhead : ∀ c, q.head? = some c → isSepChar c = false)
    (hdrv : q[1]? ≠ some ':') : winRootName q = [] := by
  rcases q with _ | ⟨a, _ | ⟨b, rest⟩⟩
  · rfl
  · rfl
  · have ha : isSepChar a = false := hhead a rfl
    have hb : ¬ (b = ':') := fun hbc => hdrv (by simp [hbc])
    simp only [winRootName]
    rw [if_neg hb, if_neg (by simp [ha])]

/-- C1 amended.  The containment guard lives in the Windows build only: there,
after the verbatim marker, the drive designator and the leading separators are
stripped, and provided no drive designator remains in the stripped path, the
computed extraction path is exactly the destination root followed by a
separator and the stripped relative path — lexically under the root. -/
theorem c1_amended_win_containment (dest rel : List Char)
    (hne : dest ≠ [])
    (hlast : (dest.getLast?).all (fun c => ! isSepChar c) = true)
    (hdrv : (normalizeEntryPathWin rel)[1]? ≠ some ':') :
    fullPathWin dest rel = dest ++ '\\' :: normalizeEntryPathWin rel ∧
    underRootWin dest (fullPathWin dest rel) = true := by
  have hhead : ∀ c, (normalizeEntryPathWin rel).head? = some c → isSepChar c = false :=
    normalizeEntryPathWin_head rel
  have hroot : winRootName (normalizeEntryPathWin rel) = [] :=
    winRootName_eq_nil _ hhead hdrv
  have hafter : winAfterRoot (normalizeEntryPathWin rel) = normalizeEntryPathWin rel := by
    unfold winAfterRoot
    rw [hroot]
    rfl
  have hrootdir : winHasRootDir (normalizeEntryPathWin rel) = false := by
    unfold winHasRootDir
    rw [hafter]
    rcases hqm : normalizeEntryPathWin rel with _ | ⟨a, t⟩
    · rfl
    · have ha : isSepChar a = false := hhead a (by rw [hqm]; rfl)
      exact ha
  have habs : winIsAbsolute (normalizeEntryPathWin rel) = false := by
    unfold winIsAbsolute
    rw [hrootdir]
    simp
  have hjoin : fullPathWin dest rel = dest ++ '\\' :: normalizeEntryPathWin rel := by
    unfold fullPathWin winJoin
    rw [habs, hrootdir]
    rw [if_neg (by simp)]
    rw [if_neg (by simp [hroot])]
    rw [if_neg (by simp)]
    rcases hd : dest.getLast? with _ | c
    · exact absurd (List.getLast?_eq_none_iff.mp hd) hne
    · have hc : isSepChar c = false := by
        rw [hd] at hlast
        simpa using hlast
      simp [hc, hafter]
  refine ⟨hjoin, ?_⟩
  rw [hjoin]
  unfold underRootWin
  rw [List.isPrefixOf_iff_prefix]
  exact ⟨normalizeEntryPathWin rel, by simp⟩

/-- Witness for the amended C1 theorem: the malicious stored path
`\\?\C:\evil` is normalized to `evil` and lands under `C:\dest`. -/
theorem c1_amended_win_containment_witness :
    ("C:\\dest".data ≠ []) ∧
    fullPathWin ("C:\\dest".data) ("\\\\?\\C:\\evil".data)
      = "C:\\dest\\evil".data := by
  refine ⟨by decide, ?_⟩
  have h := c1_amended_win_containment ("C:\\dest".data) ("\\\\?\\C:\\evil".data)
    (by decide) (by decide) (by decide)
  rw [h.1]
  decide

/-! ## Pack-side control flow (src/main.cpp lines 77-172)

`addFile` builds one entry for the node the directory walk visits and drives
the codec's `archive_write_header` / `archive_write_data` calls; it is
embedded over the tri-state header result of section 6 (`OK | WARN | FATAL`)
and the outcomes of the filesystem calls it makes.  `packDirectory` opens the
write session and runs the range-for over `fs::recursive_directory_iterator`;
only the loop body is inside its try/catch, the iterator construction and
increment are outside it. -/

/-- Tri-state result of a codec header commit (section 6):
`ARCHIVE_OK`, `ARCHIVE_WARN`, or a fatal code below `ARCHIVE_WARN`. -/
inductive HdrRes where
  | ok
  | warn
  | fatal
deriving DecidableEq

/-- Node classification used by addFile: `fs::is_symlink` is checked first,
then `fs::is_directory`, then `fs::is_regular_file`; everything else (FIFO,
socket, device node) falls through all three branches. -/
inductive NodeKind where
  | symlink
  | directory
  | regular
  | other
deriving DecidableEq

/-- Container-level action performed through the codec write session. -/
inductive ArchAct where
  | header (k : NodeKind)
  | data
deriving DecidableEq

/-- Environment answers to the calls addFile makes while processing one node:
entry allocation, the filesystem calls that may throw, the header commit
result, the source-file open, the number of 8 KiB chunks read, and whether
`archive_write_data` succeeds. -/
structure AddFileEnv where
  entryAllocOk : Bool
  fsThrows : Bool
  headerRes : HdrRes
  openOk : Bool
  chunks : Nat
  dataWriteOk : Bool
deriving DecidableEq

/-- Return value, codec actions and always-on diagnostics of one addFile call. -/
structure AddFileOut where
  ret : Bool
  acts : List ArchAct
  logs : List String
deriving DecidableEq

/-- addFile (src/main.cpp lines 77-137).  `Except` models a C++ exception
escaping from the std::filesystem calls inside the function; such an
exception is caught by the caller's try/catch.  A node that is neither
symlink, directory nor regular file takes none of the three branches and
falls through to `return true`. -/
def addFile (k : NodeKind) (e : AddFileEnv) : Except Unit AddFileOut :=
  if ¬ e.entryAllocOk then .ok ⟨false, [], ["FAILED: archive_entry_new"]⟩
  else if e.fsThrows then .error ()
  else
    match k with
    | .symlink =>
      if e.headerRes = .ok then .ok ⟨true, [.header .symlink], []⟩
      else .ok ⟨false, [.header .symlink], []⟩
    | .directory =>
      if e.headerRes = .ok then .ok ⟨true, [.header .directory], []⟩
      else .ok ⟨false, [.header .directory], []⟩
    | .regular =>
      match e.headerRes with
      | .fatal =>
        .ok ⟨false, [.header .regular],
             ["Serious errors that make remaining operations impossible!"]⟩
      | hr =>
        let warnLogs := if hr = .warn
          then ["WARNING: Inappropriate file type or format"] else []
        if ¬ e.openOk then .ok ⟨false, [.header .regular], warnLogs⟩
        else if e.chunks = 0 then .ok ⟨true, [.header .regular], warnLogs⟩
        else if e.dataWriteOk then
          .ok ⟨true, .header .regular :: List.replicate e.chunks .data, warnLogs⟩
        else .ok ⟨false, [.header .regular, .data], warnLogs⟩
    | .other => .ok ⟨true, [], []⟩

/-- One step of the directory walk: either the iterator yields a node (whose
processing happens inside the try/catch), or the iterator itself throws while
advancing or descending — which happens outside the try/catch. -/
inductive WalkStep where
  | node (k : NodeKind) (e : AddFileEnv)
  | iterThrow
deriving DecidableEq

/-- Codec actions contributed by one walk step (none if addFile threw:
the catch block only logs under DEBUG). -/
def stepActs (s : WalkStep) : List ArchAct :=
  match s with
  | .iterThrow => []
  | .node k e =>
    match addFile k e with
    | .error _ => []
    | .ok o => o.acts

/-- Always-on diagnostics contributed by one walk step. -/
def stepLogs (s : WalkStep) : List String :=
  match s with
  | .iterThrow => []
  | .node k e =>
    match addFile k e with
    | .error _ => []
    | .ok o => o.logs

structure PackRun where
  acts : List ArchAct
  logs : List String
  escaped : Bool
deriving DecidableEq

/-- The range-for of packDirectory (src/main.cpp lines 154-170): the body —
addFile plus its logging — sits inside a try/catch, so an exception from
addFile is swallowed and the loop continues; an exception from the iterator
increment or construction is not caught and escapes the loop. -/
def packLoop : List WalkStep → PackRun
  | [] => ⟨[], [], false⟩
  | .iterThrow :: _ => ⟨[], [], true⟩
  | s :: rest =>
    let r := packLoop rest
    ⟨stepActs s ++ r.acts, stepLogs s ++ r.logs, r.escaped⟩

/-- Observable outcome of packDirectory: a normal boolean return, or a C++
exception propagating out of the function. -/
inductive PackResult where
  | returned (b : Bool)
  | thrown
deriving DecidableEq

structure PackOut where
  res : PackResult
  acts : List ArchAct
  logs : List String
deriving DecidableEq

/-- packDirectory (src/main.cpp lines 140-172): fail if `archive_write_new`
gives no session or `archive_write_open_filename` fails; then run the walk
and return true unconditionally. -/
def packDirectory (writeAllocOk openOk : Bool) (steps : List WalkStep) : PackOut :=
  if ¬ writeAllocOk then ⟨.returned false, [], []⟩
  else if ¬ openOk then ⟨.returned false, [], []⟩
  else
    let r := packLoop steps
    ⟨if r.escaped then .thrown else .returned true, r.acts, r.logs⟩

theorem packLoop_escaped (steps : List WalkStep) :
    (packLoop steps).escaped = true ↔ WalkStep.iterThrow ∈ steps := by
  induction steps with
  | nil => simp [packLoop]
  | cons s rest ih =>
    cases s with
    | iterThrow => simp [packLoop]
    | node k e =>
      rw [show packLoop (WalkStep.node k e :: rest)
          = ⟨stepActs (.node k e) ++ (packLoop rest).acts,
             stepLogs (.node k e) ++ (packLoop rest).logs,
             (packLoop rest).escaped⟩ from rfl]
      simp [ih]

theorem packLoop_append_nodes (pre rest : List WalkStep)
    (h : WalkStep.iterThrow ∉ pre) :
    packLoop (pre ++ rest)
      = ⟨(pre.map stepActs).flatten ++ (packLoop rest).acts,
         (pre.map stepLogs).flatten ++ (packLoop rest).logs,
         (packLoop rest).escaped⟩ := by
  induction pre with
  | nil => simp [packLoop]
  | cons s pre ih =>
    have hs : s ≠ WalkStep.iterThrow := by
      intro hs
      exact h (by rw [hs]; exact List.mem_cons_self _ _)
    have hpre : WalkStep.iterThrow ∉ pre := fun hm => h (List.mem_cons_of_mem _ hm)
    cases s with
    | iterThrow => exact absurd rfl hs
    | node k e =>
      rw [List.cons_append]
      rw [show packLoop (WalkStep.node k e :: (pre ++ rest))
          = ⟨stepActs (.node k e) ++ (packLoop (pre ++ rest)).acts,
             stepLogs (.node k e) ++ (packLoop (pre ++ rest)).logs,
             (packLoop (pre ++ rest)).escaped⟩ from rfl]
      rw [ih hpre]
      simp

/-! ## Unpack-side control flow (src/main.cpp lines 174-251)

The unpack loop runs `while (archive_read_next_header(...) == ARCHIVE_OK)`:
a header that fails to read ends the loop; a header that reads but whose
disk commit fails, or whose processing throws, is skipped by
`continue`/the catch block and the loop moves on.  `unpackArchive` then
returns true unconditionally. -/

/-- Environment answers for one successfully read header: whether the body
throws before the entry completes, and whether `archive_write_header` on the
disk-write session returns `ARCHIVE_OK`. -/
structure UEntryEnv where
  bodyThrows : Bool
  commitOk : Bool
  isRegular : Bool
deriving DecidableEq

/-- One iteration of the read loop: `archive_read_next_header` either yields
a header or fails (corrupt header, truncated stream), which ends the loop. -/
inductive ReadStep where
  | header (e : UEntryEnv)
  | corrupt
deriving DecidableEq

/-- The read loop of unpackArchive (src/main.cpp lines 202-249), collecting
the entries whose metadata was committed to disk. -/
def unpackLoop : List ReadStep → List UEntryEnv
  | [] => []
  | .corrupt :: _ => []
  | .header e :: rest =>
    if e.bodyThrows then unpackLoop rest
    else if e.commitOk then e :: unpackLoop rest
    else unpackLoop rest

/-- unpackArchive (src/main.cpp lines 174-251): fail if a session cannot be
allocated or the container cannot be opened; otherwise run the read loop and
return true unconditionally. -/
def unpackArchive (readAllocOk diskAllocOk openOk : Bool) (steps : List ReadStep) :
    Bool × List UEntryEnv :=
  if ¬ (readAllocOk ∧ diskAllocOk) then (false, [])
  else if ¬ openOk then (false, [])
  else (true, unpackLoop steps)

theorem packLoop_noThrow (steps : List WalkStep) (h : WalkStep.iterThrow ∉ steps) :
    packLoop steps = ⟨(steps.map stepActs).flatten, (steps.map stepLogs).flatten, false⟩ := by
  have := packLoop_append_nodes steps [] h
  simpa [packLoop] using this

theorem packDirectory_open_run (steps : List WalkStep) (h : WalkStep.iterThrow ∉ steps) :
    packDirectory true true steps
      = ⟨PackResult.returned true, (steps.map stepActs).flatten,
         (steps.map stepLogs).flatten⟩ := by
  unfold packDirectory
  rw [packLoop_noThrow steps h]
  simp

theorem packDirectory_throw (pre post : List WalkStep) (h : WalkStep.iterThrow ∉ pre) :
    packDirectory true true (pre ++ WalkStep.iterThrow :: post)
      = ⟨PackResult.thrown, (pre.map stepActs).flatten,
         (pre.map stepLogs).flatten⟩ := by
  unfold packDirectory
  rw [packLoop_append_nodes pre _ h]
  simp [packLoop]

theorem iterThrow_notMem_middle (pre post : List WalkStep) (k : NodeKind) (e : AddFileEnv)
    (hpre : WalkStep.iterThrow ∉ pre) (hpost : WalkStep.iterThrow ∉ post) :
    WalkStep.iterThrow ∉ (pre ++ WalkStep.node k e :: post) := by
  intro hm
  rcases List.mem_append.mp hm with h | h
  · exact hpre h
  · rcases List.mem_cons.mp h with h | h
    · exact WalkStep.noConfusion h
    · exact hpost h

/-- C3 counterexample.  An archive run in which the first entry's header
commit is fatal: packDirectory nevertheless processes the second entry (its
header action is performed) and returns success — the pack is neither aborted
nor reported as failed. -/
theorem c3_counterexample :
    (packDirectory true true
      [WalkStep.node NodeKind.directory ⟨true, false, HdrRes.fatal, true, 0, true⟩,
       WalkStep.node NodeKind.directory ⟨true, false, HdrRes.ok, true, 0, true⟩]).res
      = PackResult.returned true ∧
    (packDirectory true true
      [WalkStep.node NodeKind.directory ⟨true, false, HdrRes.fatal, true, 0, true⟩,
       WalkStep.node NodeKind.directory ⟨true, false, HdrRes.ok, true, 0, true⟩]).acts
      = [ArchAct.header NodeKind.directory, ArchAct.header NodeKind.directory] := by
  decide

/-- C3 amended.  A fatal header commit aborts only the current entry: addFile
returns false without streaming a body, but packDirectory merely logs (under
DEBUG), continues with all remaining walk entries and still reports success. -/
theorem c3_amended_fatal_entry_local (k : NodeKind) (e : AddFileEnv)
    (pre post : List WalkStep)
    (hk : k ≠ NodeKind.other)
    (ha : e.entryAllocOk = true) (ht : e.fsThrows = false)
    (hf : e.headerRes = HdrRes.fatal)
    (hpre : WalkStep.iterThrow ∉ pre) (hpost : WalkStep.iterThrow ∉ post) :
    (∃ logs, addFile k e = .ok ⟨false, [ArchAct.header k], logs⟩) ∧
    (packDirectory true true (pre ++ WalkStep.node k e :: post)).res
      = PackResult.returned true ∧
    (packDirectory true true (pre ++ WalkStep.node k e :: post)).acts
      = (pre.map stepActs).flatten ++ ArchAct.header k :: (post.map stepActs).flatten := by
  have hadd : ∃ logs, addFile k e = .ok ⟨false, [ArchAct.header k], logs⟩ := by
    cases k with
    | symlink => exact ⟨[], by simp [addFile, ha, ht, hf]⟩
    | directory => exact ⟨[], by simp [addFile, ha, ht, hf]⟩
    | regular =>
      exact ⟨["Serious errors that make remaining operations impossible!"],
        by simp [addFile, ha, ht, hf]⟩
    | other => exact absurd rfl hk
  have hacts : stepActs (WalkStep.node k e) = [ArchAct.header k] := by
    obtain ⟨logs, hl⟩ := hadd
    simp [stepActs, hl]
  have hmem := iterThrow_notMem_middle pre post k e hpre hpost
  refine ⟨hadd, ?_, ?_⟩
  · rw [packDirectory_open_run _ hmem]
  · rw [packDirectory_open_run _ hmem]
    simp [hacts]

theorem c3_amended_fatal_entry_local_witness :
    (packDirectory true true
      [WalkStep.node NodeKind.directory ⟨true, false, HdrRes.fatal, true, 0, true⟩]).res
      = PackResult.returned true :=
  (c3_amended_fatal_entry_local NodeKind.directory
    ⟨true, false, HdrRes.fatal, true, 0, true⟩ [] [] (by decide) rfl rfl rfl
    (by simp) (by simp)).2.1

/-- C5 counterexample.  A run in which the write session opened successfully
but the directory iterator throws: packDirectory neither reports success nor
returns failure — the exception escapes it, contradicting the claim that every
run with an opened session reports success. -/
theorem c5_counterexample :
    (packDirectory true true [WalkStep.iterThrow]).res = PackResult.thrown ∧
    PackResult.thrown ≠ PackResult.returned true ∧
    PackResult.thrown ≠ PackResult.returned false := by
  decide

/-- C5 amended.  packDirectory returns failure exactly when the write session
could not be allocated or opened; with an open session it returns success
provided the directory traversal itself raises no error, while a traversal
error escapes the function as an exception instead of a returned result. -/
theorem c5_amended_result (wa oo : Bool) (steps : List WalkStep) :
    ((packDirectory wa oo steps).res = PackResult.returned false
      ↔ (wa = false ∨ oo = false)) ∧
    (wa = true → oo = true → WalkStep.iterThrow ∉ steps →
      (packDirectory wa oo steps).res = PackResult.returned true) ∧
    (wa = true → oo = true → WalkStep.iterThrow ∈ steps →
      (packDirectory wa oo steps).res = PackResult.thrown) := by
  refine ⟨?_, ?_, ?_⟩
  · cases wa with
    | false => simp [packDirectory]
    | true =>
      cases oo with
      | false => simp [packDirectory]
      | true =>
        simp only [packDirectory]
        cases h : (packLoop steps).escaped <;> simp [h]
  · intro hwa hoo hsteps
    subst hwa; subst hoo
    rw [packDirectory_open_run _ hsteps]
  · intro hwa hoo hsteps
    subst hwa; subst hoo
    have he : (packLoop steps).escaped = true := (packLoop_escaped steps).mpr hsteps
    simp [packDirectory, he]

theorem c5_amended_result_witness :
    (packDirectory true true []).res = PackResult.returned true :=
  (c5_amended_result true true []).2.1 rfl rfl (by simp)

/-- C7 counterexample.  The walk visits one node, then the iterator throws
while advancing (e.g. permission denied opening a subdirectory): the exception
escapes packDirectory, the third node is never visited and nothing is logged —
the walk is aborted rather than continued. -/
theorem c7_counterexample :
    packDirectory true true
      [WalkStep.node NodeKind.directory ⟨true, false, HdrRes.ok, true, 0, true⟩,
       WalkStep.iterThrow,
       WalkStep.node NodeKind.regular ⟨true, false, HdrRes.ok, true, 1, true⟩]
      = ⟨PackResult.thrown, [ArchAct.header NodeKind.directory], []⟩ := by
  decide

/-- C7 amended.  An error raised while handling the visited node itself (a
std::filesystem call inside addFile throws) is caught per node and the walk
continues over the remaining nodes (silently in non-DEBUG builds); an error
from the iterator while advancing or descending is outside the try/catch and
aborts the walk. -/
theorem c7_amended_node_errors_caught (k : NodeKind) (e : AddFileEnv)
    (pre post pre2 post2 : List WalkStep)
    (ha : e.entryAllocOk = true) (he : e.fsThrows = true)
    (hpre : WalkStep.iterThrow ∉ pre) (hpost : WalkStep.iterThrow ∉ post)
    (hpre2 : WalkStep.iterThrow ∉ pre2) :
    addFile k e = .error () ∧
    packDirectory true true (pre ++ WalkStep.node k e :: post)
      = ⟨PackResult.returned true,
         (pre.map stepActs).flatten ++ (post.map stepActs).flatten,
         (pre.map stepLogs).flatten ++ (post.map stepLogs).flatten⟩ ∧
    (packDirectory true true (pre2 ++ WalkStep.iterThrow :: post2)).res
      = PackResult.thrown := by
  have hadd : addFile k e = .error () := by
    simp [addFile, ha, he]
  have hacts : stepActs (WalkStep.node k e) = [] := by simp [stepActs, hadd]
  have hlogs : stepLogs (WalkStep.node k e) = [] := by simp [stepLogs, hadd]
  have hmem := iterThrow_notMem_middle pre post k e hpre hpost
  refine ⟨hadd, ?_, ?_⟩
  · rw [packDirectory_open_run _ hmem]
    simp [hacts, hlogs]
  · rw [packDirectory_throw pre2 post2 hpre2]

theorem c7_amended_node_errors_caught_witness :
    packDirectory true true
      [WalkStep.node NodeKind.regular ⟨true, true, HdrRes.ok, true, 0, true⟩]
      = ⟨PackResult.returned true, [], []⟩ :=
  (c7_amended_node_errors_caught NodeKind.regular
    ⟨true, true, HdrRes.ok, true, 0, true⟩ [] [] [] [] rfl rfl
    (by simp) (by simp) (by simp)).2.1

/-- C10.  A visited filesystem object that is neither symlink, directory nor
regular file falls through all three branches of addFile: no header and no
body is written to the container, no diagnostic is emitted, addFile reports
success, and the surrounding pack run is unaffected. -/
theorem c10_special_node_silently_skipped (e : AddFileEnv)
    (ha : e.entryAllocOk = true) (ht : e.fsThrows = false)
    (pre post : List WalkStep)
    (hpre : WalkStep.iterThrow ∉ pre) (hpost : WalkStep.iterThrow ∉ post) :
    addFile NodeKind.other e = .ok ⟨true, [], []⟩ ∧
    packDirectory true true (pre ++ WalkStep.node NodeKind.other e :: post)
      = ⟨PackResult.returned true,
         (pre.map stepActs).flatten ++ (post.map stepActs).flatten,
         (pre.map stepLogs).flatten ++ (post.map stepLogs).flatten⟩ := by
  have hadd : addFile NodeKind.other e = .ok ⟨true, [], []⟩ := by
    simp [addFile, ha, ht]
  have hacts : stepActs (WalkStep.node NodeKind.other e) = [] := by
    simp [stepActs, hadd]
  have hlogs : stepLogs (WalkStep.node NodeKind.other e) = [] := by
    simp [stepLogs, hadd]
  have hmem := iterThrow_notMem_middle pre post NodeKind.other e hpre hpost
  refine ⟨hadd, ?_⟩
  rw [packDirectory_open_run _ hmem]
  simp [hacts, hlogs]

theorem c10_special_node_silently_skipped_witness :
    addFile NodeKind.other ⟨true, false, HdrRes.ok, true, 0, true⟩
      = .ok ⟨true, [], []⟩ :=
  (c10_special_node_silently_skipped ⟨true, false, HdrRes.ok, true, 0, true⟩
    rfl rfl [] [] (by simp) (by simp)).1

/-- C2 counterexample.  An archive whose first header is corrupt and whose
second entry is perfectly valid: the while condition fails at the corrupt
header, the loop terminates immediately, and the valid entry is never
restored — instead of the claimed N-1 restored entries. -/
theorem c2_counterexample :
    unpackLoop [ReadStep.corrupt, ReadStep.header ⟨false, true, true⟩] = [] ∧
    unpackLoop [ReadStep.corrupt, ReadStep.header ⟨false, true, true⟩]
      ≠ [⟨false, true, true⟩] := by
  decide

/-- C2 amended.  The valid entries read before the corrupt header are
restored; the loop terminates at the first failed header read, so entries
after it are not restored, while unpackArchive still reports success.  An
exception thrown while processing a successfully read header, or a failed
disk header commit, only skips that one entry and the loop continues. -/
theorem c2_amended_prefix_restored (before : List UEntryEnv) (rest : List ReadStep)
    (h : ∀ e ∈ before, e.bodyThrows = false ∧ e.commitOk = true) :
    unpackLoop (before.map ReadStep.header ++ ReadStep.corrupt :: rest) = before ∧
    unpackArchive true true true (before.map ReadStep.header ++ ReadStep.corrupt :: rest)
      = (true, before) ∧
    (∀ e rest2, e.bodyThrows = true →
      unpackLoop (ReadStep.header e :: rest2) = unpackLoop rest2) ∧
    (∀ e rest2, e.bodyThrows = false → e.commitOk = false →
      unpackLoop (ReadStep.header e :: rest2) = unpackLoop rest2) := by
  have hmain : unpackLoop (before.map ReadStep.header ++ ReadStep.corrupt :: rest)
      = before := by
    induction before with
    | nil => simp [unpackLoop]
    | cons e tail ih =>
      have he := h e (List.mem_cons_self _ _)
      have htail : ∀ x ∈ tail, x.bodyThrows = false ∧ x.commitOk = true :=
        fun x hx => h x (List.mem_cons_of_mem _ hx)
      simp only [List.map_cons, List.cons_append, unpackLoop]
      rw [he.1, he.2]
      simp [ih htail]
  refine ⟨hmain, ?_, ?_, ?_⟩
  · simp [unpackArchive, hmain]
  · intro e rest2 hthrow
    simp [unpackLoop, hthrow]
  · intro e rest2 hthrow hcommit
    simp [unpackLoop, hthrow, hcommit]

theorem c2_amended_prefix_restored_witness :
    unpackArchive true true true
      [ReadStep.header ⟨false, true, false⟩, ReadStep.corrupt]
      = (true, [⟨false, true, false⟩]) :=
  (c2_amended_prefix_restored [⟨false, true, false⟩] []
    (by intro e he; simp at he; simp [he])).2.1

/-! ## Umask handling around the disk header commit (src/main.cpp lines 222-230)

The unpack loop body saves the process umask with `umask(0)` directly before
`archive_write_header(ext, entry)` and restores it with `umask(old_umask)` on
the next statement, before the result `r` is even inspected — so the restore
happens whether or not the commit succeeded.  The trace below records, in
statement order, which umask value is in effect at each phase of one loop
iteration, together with the umask left behind at the end. -/

inductive UnpackPhase where
  | readPathname
  | createParentDirs
  | setPathname
  | commitHeader
  | copyData
  | finishEntry
deriving DecidableEq

/-- Phases of one unpack-loop iteration paired with the umask in effect while
they execute, plus the final umask (src/main.cpp lines 202-248): everything
before the commit runs under the original umask `u0`; the commit runs under 0;
the restore precedes the `r != ARCHIVE_OK` check, so the phases after it —
executed only when the commit succeeded — again run under `u0`. -/
def entryUmaskTrace (u0 : Nat) (commitOk isRegular : Bool) :
    List (UnpackPhase × Nat) × Nat :=
  ([(UnpackPhase.readPathname, u0),
    (UnpackPhase.createParentDirs, u0),
    (UnpackPhase.setPathname, u0),
    (UnpackPhase.commitHeader, 0)]
   ++ (if commitOk then
         (if isRegular then [(UnpackPhase.copyData, u0)] else [])
         ++ [(UnpackPhase.finishEntry, u0)]
       else []),
   u0)

/-- C6.  For every entry of the unpack loop the umask is zero exactly during
the header-commit-to-disk step, equals the original value at every other
phase, and is restored to the original value at the end of the iteration
whether or not the commit succeeded. -/
theorem c6_umask_scoped (u0 : Nat) (commitOk isRegular : Bool) :
    (entryUmaskTrace u0 commitOk isRegular).2 = u0 ∧
    (∀ ph u, (ph, u) ∈ (entryUmaskTrace u0 commitOk isRegular).1 →
      u = (if ph = UnpackPhase.commitHeader then 0 else u0)) := by
  refine ⟨rfl, ?_⟩
  intro ph u hmem
  cases commitOk <;> cases isRegular <;>
    simp [entryUmaskTrace] at hmem <;>
    aesop

theorem c6_umask_scoped_witness :
    (entryUmaskTrace 18 false true).2 = 18 :=
  (c6_umask_scoped 18 false true).1

/-! ## CLI surface (src/main.cpp lines 259-299)

`main` requires `argc == 4` (the program name plus three user arguments,
matching the spec's count of four positional cells), dispatches on the
subcommand, creates the unpack destination if absent before unpacking, and
maps outcomes to the exit codes 0/1/2.  The operation outcomes and filesystem
answers are parameters. -/

structure CLIWorld where
  packRes : Bool
  unpackRes : Bool
  dstExists : Bool
  createOk : Bool
deriving DecidableEq

inductive CLIAct where
  | createDstDir
  | runPack
  | runUnpack
deriving DecidableEq

/-- main (src/main.cpp lines 259-299), returning the process exit code and
the ordered operational actions it performed. -/
def main (argv : List String) (w : CLIWorld) : Nat × List CLIAct :=
  if h : argv.length = 4 then
    match argv with
    | [_, cmd, _, _] =>
      if cmd = "pack" then
        (if w.packRes then 0 else 1, [CLIAct.runPack])
      else if cmd = "unpack" then
        if w.dstExists then
          (if w.unpackRes then 0 else 1, [CLIAct.runUnpack])
        else if w.createOk then
          (if w.unpackRes then 0 else 1, [CLIAct.createDstDir, CLIAct.runUnpack])
        else (1, [CLIAct.createDstDir])
      else (2, [])
  else (1, [])

/-- C8.  Exit code 0 on operation success, 1 on operation failure or a bad
argument count (anything but four argv cells), 2 on an unrecognized
subcommand; for unpack, an absent destination directory is created before the
unpack operation runs, and a failed creation exits 1 without unpacking. -/
theorem c8_cli_contract (prog s d cmd : String) (w : CLIWorld) :
    (∀ argv : List String, argv.length ≠ 4 → main argv w = (1, [])) ∧
    main [prog, "pack", s, d] w = (if w.packRes then 0 else 1, [CLIAct.runPack]) ∧
    (w.dstExists = true →
      main [prog, "unpack", s, d] w
        = (if w.unpackRes then 0 else 1, [CLIAct.runUnpack])) ∧
    (w.dstExists = false → w.createOk = true →
      main [prog, "unpack", s, d] w
        = (if w.unpackRes then 0 else 1, [CLIAct.createDstDir, CLIAct.runUnpack])) ∧
    (w.dstExists = false → w.createOk = false →
      main [prog, "unpack", s, d] w = (1, [CLIAct.createDstDir])) ∧
    (cmd ≠ "pack" → cmd ≠ "unpack" → main [prog, cmd, s, d] w = (2, [])) := by
  refine ⟨?_, ?_, ?_, ?_, ?_, ?_⟩
  · intro argv hlen
    simp [main, hlen]
  · simp [main]
  · intro hex
    simp [main, hex]
  · intro hex hcr
    simp [main, hex, hcr]
  · intro hex hcr
    simp [main, hex, hcr]
  · intro hp hu
    simp [main, hp, hu]

theorem c8_cli_contract_witness :
    main ["prog", "pack", "srcdir", "out.tar.gz"] ⟨true, true, true, true⟩
      = (0, [CLIAct.runPack]) :=
  (c8_cli_contract "prog" "srcdir" "out.tar.gz" "status" ⟨true, true, true, true⟩).2.1

/-! ## Round trip (pack then unpack) — data model

A source tree is a nested value: regular files carry a native permission mask
and content bytes, directories carry a mask and named children, symlinks
carry their raw target string.  The walker follows
`fs::recursive_directory_iterator(dir, follow_directory_symlink)`: pre-order,
descending both into directories and into symlinks that resolve to
directories; the latter can revisit a directory for ever, so the walk is
written with explicit fuel (`none` = the walk has not finished within that
depth budget).  Symlink resolution and extraction-to-disk follow the host
filesystem collaborator of spec section 6 and are modelled from the spec. -/

mutual
inductive FSNode where
  | file (mode : Nat) (content : List Nat)
  | dir (mode : Nat) (children : FSEntries)
  | symlink (target : String)
inductive FSEntries where
  | nil
  | cons (name : String) (node : FSNode) (rest : FSEntries)
end

def findChild : FSEntries → String → Option FSNode
  | .nil, _ => none
  | .cons a c rest, name => if a = name then some c else findChild rest name

/-- Plain lookup of a physical path inside the tree. -/
def lookupPath (d : FSNode) : List String → Option FSNode
  | [] => some d
  | a :: p =>
    match d with
    | .dir _ cs =>
      match findChild cs a with
      | some c => lookupPath c p
      | none => none
    | _ => none

/-- Modelled from the spec: lexical resolution of the component list of a
symlink target against the physical directory holding the link; `.` and empty
components are dropped, `..` steps up, and a target escaping the modelled
tree (or an absolute target, whose real anchor is outside the tree) resolves
to nothing. -/
def normComponents : List String → List String → Option (List String)
  | acc, [] => some acc
  | acc, c :: rest =>
    if c = "" ∨ c = "." then normComponents acc rest
    else if c = ".." then
      match acc with
      | [] => none
      | _ :: _ => normComponents acc.dropLast rest
    else normComponents (acc ++ [c]) rest

/-- Split a path string into its `/`-separated components. -/
def splitComps : List Char → List Char → List String
  | [], acc => [String.mk acc.reverse]
  | '/' :: rest, acc => String.mk acc.reverse :: splitComps rest []
  | c :: rest, acc => splitComps rest (c :: acc)

def resolvePath (cwd : List String) (t : String) : Option (List String) :=
  match t.data with
  | '/' :: _ => none
  | cs => normComponents cwd (splitComps cs [])

/-- The recursive directory walk with follow_directory_symlink
(src/main.cpp lines 154-155), over the children `cs` of the physical
directory at `q`, displayed under the path prefix `p`.  Every walk step
spends one unit of fuel; `none` means the walk did not finish within the
fuel budget. -/
def walkChildren (root : FSNode) : Nat → List String → List String →
    FSEntries → Option (List (List String × FSNode))
  | 0, _, _, _ => none
  | _ + 1, _, _, .nil => some []
  | fuel + 1, p, q, .cons name c rest =>
    let sub : Option (List (List String × FSNode)) :=
      match c with
      | .dir _ cs2 => walkChildren root fuel (p ++ [name]) (q ++ [name]) cs2
      | .symlink t =>
        match resolvePath q t with
        | some qd =>
          match lookupPath root qd with
          | some (.dir _ cs2) => walkChildren root fuel (p ++ [name]) qd cs2
          | _ => some []
        | none => some []
      | .file _ _ => some []
    match sub with
    | none => none
    | some s =>
      match walkChildren root fuel p q rest with
      | none => none
      | some tail => some ((p ++ [name], c) :: s ++ tail)

/-- The full walk of a source tree: the iterator runs over the root
directory's children. -/
def walkTree (t : FSNode) (fuel : Nat) : Option (List (List String × FSNode)) :=
  match t with
  | .dir _ cs => walkChildren t fuel [] [] cs
  | _ => none

mutual
/-- Plain structural pre-order walk of the children — what the iterator
produces when it never has a directory-resolving symlink to follow. -/
def walkNSNode (p : List String) : FSNode → List (List String × FSNode)
  | .dir _ cs => walkNSList p cs
  | _ => []
def walkNSList (p : List String) : FSEntries → List (List String × FSNode)
  | .nil => []
  | .cons name c rest =>
    (p ++ [name], c) :: walkNSNode (p ++ [name]) c ++ walkNSList p rest
end

/-- Header fields of one container entry (spec sections 3 and 6): path (kept
as its component list, the parse of the `/`-joined POSIX form), entry type,
9-bit mode, size, symlink target, plus the body bytes the codec carries for a
regular file. -/
structure ArchEntry where
  path : List String
  kind : NodeKind
  mode : Nat
  size : Nat
  target : Option String
  body : List Nat

/-- The entry addFile builds for one visited node (src/main.cpp lines
91-135): a symlink entry gets mode 0777 and its target; a directory or
regular file gets `permsToMode` of its native permissions; a regular file
additionally carries its size and streamed content. -/
def entryOf (p : List String) : FSNode → ArchEntry
  | .symlink t => ⟨p, .symlink, 0o777, 0, some t, []⟩
  | .dir m _ => ⟨p, .directory, permsToMode m, 0, none, []⟩
  | .file m c => ⟨p, .regular, permsToMode m, c.length, none, c⟩

/-- The entry list produced by packing a tree, when the walk terminates. -/
def packEntries (t : FSNode) (fuel : Nat) : Option (List ArchEntry) :=
  (walkTree t fuel).map (List.map (fun pc => entryOf pc.1 pc.2))

/-- The pack of this tree never finishes, whatever the fuel. -/
def packDiverges (t : FSNode) : Prop := ∀ fuel, packEntries t fuel = none

/-- A tree whose single entry is a symlink to its own directory: following
the symlink re-enters the same physical directory for ever. -/
def loopTree : FSNode := .dir 0o755 (.cons "loop" (.symlink ".") .nil)

theorem walkChildren_loopTree (fuel : Nat) (p : List String) :
    walkChildren loopTree fuel p [] (.cons "loop" (.symlink ".") .nil) = none := by
  induction fuel generalizing p with
  | zero => rfl
  | succ n ih =>
    show (match walkChildren loopTree n (p ++ ["loop"]) []
            (FSEntries.cons "loop" (.symlink ".") .nil) with
          | none => none
          | some s =>
            match walkChildren loopTree n p [] FSEntries.nil with
            | none => none
            | some tail => some ((p ++ ["loop"], FSNode.symlink ".") :: s ++ tail))
        = none
    rw [ih (p ++ ["loop"])]

/-- C4 counterexample.  The round-trip claim quantifies over all trees with
symlinks; for `loopTree` the pack side already fails to terminate (the gap
the spec itself flags in section 4.3), so no round-trip result exists at
all. -/
theorem c4_counterexample : packDiverges loopTree := by
  intro fuel
  unfold packEntries
  rw [show walkTree loopTree fuel
      = walkChildren loopTree fuel [] [] (.cons "loop" (.symlink ".") .nil) from rfl]
  rw [walkChildren_loopTree fuel []]
  rfl

/-- Does this symlink target resolve to a directory of the tree?  When it
does, the iterator descends through the link. -/
def symlinkResolvesToDir (root : FSNode) (q : List String) (t : String) : Bool :=
  match resolvePath q t with
  | some qd =>
    match lookupPath root qd with
    | some (.dir _ _) => true
    | _ => false
  | none => false

mutual
/-- No symlink anywhere below this node resolves to a directory (so the
walker never descends through a symlink). -/
def noDirSymNode (root : FSNode) (q : List String) (name : String) : FSNode → Bool
  | .symlink t => ! symlinkResolvesToDir root q t
  | .dir _ cs => noDirSymEntries root (q ++ [name]) cs
  | .file _ _ => true
def noDirSymEntries (root : FSNode) (q : List String) : FSEntries → Bool
  | .nil => true
  | .cons name c rest =>
    noDirSymNode root q name c && noDirSymEntries root q rest
end

def hasName : FSEntries → String → Bool
  | .nil, _ => false
  | .cons a _ rest, name => (a = name) || hasName rest name

mutual
/-- Well-formed source tree: sibling names are distinct (as on a real
filesystem) and native permission masks carry only the nine rwx bits the
engine preserves. -/
def wfNode : FSNode → Bool
  | .file m _ => decide (m < 512)
  | .symlink _ => true
  | .dir m cs => decide (m < 512) && wfEntries cs
def wfEntries : FSEntries → Bool
  | .nil => true
  | .cons name c rest => wfNode c && ! hasName rest name && wfEntries rest
end

/-! ## Round trip — extraction side

Per entry, the unpack loop creates the missing parent directories
(`fs::create_directories`, under the ambient umask, hence with a default
mode) and then commits the entry to disk; `ARCHIVE_EXTRACT_UNLINK` replaces
an existing node, a directory entry applies its mode to an existing
directory, and a failed commit (for instance an intermediate path component
that is not a directory) skips the entry and the loop continues.  Modelled
from the spec: disk-write collaborator of section 6. -/

/-- The node a committed header materializes on disk. -/
def nodeOfEntry (e : ArchEntry) : FSNode :=
  match e.kind with
  | .regular => .file e.mode e.body
  | .directory => .dir e.mode .nil
  | .symlink => .symlink (e.target.getD "")
  | .other => .file e.mode e.body

/-- Committing over an existing node: a directory entry over an existing
directory keeps the children and applies the mode; anything else replaces. -/
def mergeNode (old : Option FSNode) (n : FSNode) : FSNode :=
  match old, n with
  | some (.dir _ cs), .dir m _ => .dir m cs
  | _, n => n

/-- Replace the binding of `name` (or append a new one at the end, matching
creation order in a directory being filled). -/
def setChild : FSEntries → String → FSNode → FSEntries
  | .nil, name, n => .cons name n .nil
  | .cons a c rest, name, n =>
    if a = name then .cons a n rest else .cons a c (setChild rest name n)

def catEntries : FSEntries → FSEntries → FSEntries
  | .nil, l => l
  | .cons a c rest, l => .cons a c (catEntries rest l)

/-- Write one entry node at the given path under the destination tree:
intermediate directories are created with the default mode where missing,
an intermediate non-directory makes the write fail, and the final component
is committed through `mergeNode`. -/
def extractWrite (defMode : Nat) (d : FSNode) : List String → FSNode → Option FSNode
  | [], _ => none
  | [name], n =>
    match d with
    | .dir m cs => some (.dir m (setChild cs name (mergeNode (findChild cs name) n)))
    | _ => none
  | name :: b :: rest, n =>
    match d with
    | .dir m cs =>
      match (match findChild cs name with
             | some (.dir mc csc) => some (FSNode.dir mc csc)
             | some _ => none
             | none => some (.dir defMode .nil)) with
      | some dd =>
        match extractWrite defMode dd (b :: rest) n with
        | some d2 => some (.dir m (setChild cs name d2))
        | none => none
      | none => none
    | _ => none

/-- One iteration of the restore loop for a committed header: a failed
write skips the entry (`continue`), a successful one updates the tree. -/
def extractEntry (defMode : Nat) (dest : FSNode) (e : ArchEntry) : FSNode :=
  match extractWrite defMode dest e.path (nodeOfEntry e) with
  | some d => d
  | none => dest

/-- The whole restore pass over the entry sequence read from the container. -/
def extractAll (defMode : Nat) (dest : FSNode) (es : List ArchEntry) : FSNode :=
  es.foldl (extractEntry defMode) dest

/-- Update the node found at an existing path (proof-side description of what
extractWrite does along a path of existing directories). -/
def updatePath (d : FSNode) : List String → FSNode → FSNode
  | [], n => n
  | a :: p, n =>
    match d with
    | .dir m cs =>
      match findChild cs a with
      | some c => .dir m (setChild cs a (updatePath c p n))
      | none => .dir m cs
    | _ => d

/-- Every name bound in the second entry list is unbound in the first. -/
def entriesFresh (cs0 : FSEntries) : FSEntries → Bool
  | .nil => true
  | .cons name _ rest => (findChild cs0 name).isNone && entriesFresh cs0 rest

/-- Induction on an entry list alone (the generic recursor of the mutual
family needs a second motive; this derives the one-motive version). -/
theorem entriesInd (motive : FSEntries → Prop) (hnil : motive .nil)
    (hcons : ∀ a c rest, motive rest → motive (.cons a c rest)) :
    ∀ cs, motive cs :=
  fun cs =>
    @FSEntries.rec (fun _ => True) motive
      (fun _ _ => trivial) (fun _ _ _ => trivial) (fun _ => trivial)
      hnil (fun a c rest _ hr => hcons a c rest hr) cs

theorem findChild_setChild_self (cs : FSEntries) (a : String) (y : FSNode) :
    findChild (setChild cs a y) a = some y := by
  induction cs using entriesInd with
  | hnil => simp [setChild, findChild]
  | hcons b c rest ih =>
    by_cases hb : b = a
    · subst hb
      simp [setChild, findChild]
    · simp [setChild, findChild, hb, ih]

theorem setChild_setChild (cs : FSEntries) (a : String) (u v : FSNode) :
    setChild (setChild cs a u) a v = setChild cs a v := by
  induction cs using entriesInd with
  | hnil => simp [setChild]
  | hcons b c rest ih =>
    by_cases hb : b = a
    · subst hb
      simp [setChild]
    · simp [setChild, hb, ih]

theorem setChild_eq_self (cs : FSEntries) (a : String) (c : FSNode)
    (h : findChild cs a = some c) : setChild cs a c = cs := by
  induction cs using entriesInd with
  | hnil => simp [findChild] at h
  | hcons b d rest ih =>
    by_cases hb : b = a
    · subst hb
      simp [findChild] at h
      simp [setChild, h]
    · simp [findChild, hb] at h
      simp [setChild, hb, ih h]

theorem findChild_cat_none (cs l : FSEntries) (a : String)
    (h : findChild cs a = none) :
    findChild (catEntries cs l) a = findChild l a := by
  induction cs using entriesInd with
  | hnil => simp [catEntries]
  | hcons b c rest ih =>
    by_cases hb : b = a
    · subst hb
      simp [findChild] at h
    · simp [findChild, hb] at h
      simp [catEntries, findChild, hb, ih h]

theorem setChild_cat_here (cs l : FSEntries) (a : String) (z y : FSNode)
    (h : findChild cs a = none) :
    setChild (catEntries cs (.cons a z l)) a y = catEntries cs (.cons a y l) := by
  induction cs using entriesInd with
  | hnil => simp [catEntries, setChild]
  | hcons b c rest ih =>
    by_cases hb : b = a
    · subst hb
      simp [findChild] at h
    · simp [findChild, hb] at h
      simp [catEntries, setChild, hb, ih h]

theorem setChild_none_eq_cat (cs : FSEntries) (a : String) (n : FSNode)
    (h : findChild cs a = none) :
    setChild cs a n = catEntries cs (.cons a n .nil) := by
  induction cs using entriesInd with
  | hnil => simp [catEntries, setChild]
  | hcons b c rest ih =>
    by_cases hb : b = a
    · subst hb
      simp [findChild] at h
    · simp [findChild, hb] at h
      simp [catEntries, setChild, hb, ih h]

theorem catEntries_nil (cs : FSEntries) : catEntries cs .nil = cs := by
  induction cs using entriesInd with
  | hnil => rfl
  | hcons b c rest ih => simp [catEntries, ih]

theorem catEntries_assoc (x y z : FSEntries) :
    catEntries (catEntries x y) z = catEntries x (catEntries y z) := by
  induction x using entriesInd with
  | hnil => rfl
  | hcons b c rest ih => simp [catEntries, ih]

theorem findChild_of_hasName_false (cs : FSEntries) (a : String)
    (h : hasName cs a = false) : findChild cs a = none := by
  induction cs using entriesInd with
  | hnil => rfl
  | hcons b c rest ih =>
    simp [hasName] at h
    simp [findChild, h.1, ih h.2]

theorem permsToMode_of_lt (m : Nat) (h : m < 512) : permsToMode m = m := by
  rw [permsToMode_eq_mod]
  exact Nat.mod_eq_of_lt h

theorem lookupPath_cons_dir (m : Nat) (cs : FSEntries) (a : String) (p : List String) :
    lookupPath (.dir m cs) (a :: p)
      = match findChild cs a with
        | some c => lookupPath c p
        | none => none := rfl

theorem updatePath_cons_dir (m : Nat) (cs : FSEntries) (a : String) (p : List String)
    (n : FSNode) :
    updatePath (.dir m cs) (a :: p) n
      = match findChild cs a with
        | some c => FSNode.dir m (setChild cs a (updatePath c p n))
        | none => FSNode.dir m cs := rfl

theorem lookupPath_cons_dir_found (m : Nat) (cs : FSEntries) (a : String)
    (p : List String) (c : FSNode) (hf : findChild cs a = some c) :
    lookupPath (.dir m cs) (a :: p) = lookupPath c p := by
  rw [lookupPath_cons_dir, hf]

theorem updatePath_cons_dir_found (m : Nat) (cs : FSEntries) (a : String)
    (p : List String) (n c : FSNode) (hf : findChild cs a = some c) :
    updatePath (.dir m cs) (a :: p) n = .dir m (setChild cs a (updatePath c p n)) := by
  rw [updatePath_cons_dir, hf]

theorem lookupPath_append (p : List String) :
    ∀ (dest : FSNode) (q : List String),
      lookupPath dest (p ++ q)
        = match lookupPath dest p with
          | some x => lookupPath x q
          | none => none := by
  induction p with
  | nil =>
    intro dest q
    rfl
  | cons a p ih =>
    intro dest q
    cases dest with
    | file m c => rfl
    | symlink t => rfl
    | dir m cs =>
      rw [List.cons_append, lookupPath_cons_dir, lookupPath_cons_dir]
      cases hf : findChild cs a with
      | none => rfl
      | some c => exact ih c q

theorem lookupPath_updatePath (p : List String) :
    ∀ (dest x n : FSNode), lookupPath dest p = some x →
      lookupPath (updatePath dest p n) p = some n := by
  induction p with
  | nil =>
    intro dest x n _
    rfl
  | cons a p ih =>
    intro dest x n h
    cases dest with
    | file m c => exact absurd h (by simp [lookupPath])
    | symlink t => exact absurd h (by simp [lookupPath])
    | dir m cs =>
      cases hf : findChild cs a with
      | none =>
        rw [lookupPath_cons_dir, hf] at h
        exact absurd h (by simp)
      | some c =>
        rw [lookupPath_cons_dir_found m cs a p c hf] at h
        rw [updatePath_cons_dir_found m cs a p n c hf]
        rw [lookupPath_cons_dir_found m _ a p _ (findChild_setChild_self cs a _)]
        exact ih c x n h

theorem updatePath_append (p : List String) :
    ∀ (dest x : FSNode) (q : List String) (n : FSNode),
      lookupPath dest p = some x →
      updatePath dest (p ++ q) n = updatePath dest p (updatePath x q n) := by
  induction p with
  | nil =>
    intro dest x q n h
    simp [lookupPath] at h
    subst h
    rfl
  | cons a p ih =>
    intro dest x q n h
    cases dest with
    | file m c => exact absurd h (by simp [lookupPath])
    | symlink t => exact absurd h (by simp [lookupPath])
    | dir m cs =>
      cases hf : findChild cs a with
      | none =>
        rw [lookupPath_cons_dir, hf] at h
        exact absurd h (by simp)
      | some c =>
        rw [lookupPath_cons_dir_found m cs a p c hf] at h
        rw [List.cons_append, updatePath_cons_dir_found m cs a (p ++ q) n c hf,
          updatePath_cons_dir_found m cs a p (updatePath x q n) c hf,
          ih c x q n h]

theorem updatePath_collapse (p : List String) :
    ∀ (dest x y z : FSNode), lookupPath dest p = some x →
      updatePath (updatePath dest p y) p z = updatePath dest p z := by
  induction p with
  | nil =>
    intro dest x y z _
    rfl
  | cons a p ih =>
    intro dest x y z h
    cases dest with
    | file m c => exact absurd h (by simp [lookupPath])
    | symlink t => exact absurd h (by simp [lookupPath])
    | dir m cs =>
      cases hf : findChild cs a with
      | none =>
        rw [lookupPath_cons_dir, hf] at h
        exact absurd h (by simp)
      | some c =>
        rw [lookupPath_cons_dir_found m cs a p c hf] at h
        rw [updatePath_cons_dir_found m cs a p y c hf]
        rw [updatePath_cons_dir_found m _ a p z _ (findChild_setChild_self cs a _)]
        rw [setChild_setChild, ih c x y z h]
        rw [updatePath_cons_dir_found m cs a p z c hf]

theorem updatePath_self (p : List String) :
    ∀ (dest x : FSNode), lookupPath dest p = some x →
      updatePath dest p x = dest := by
  induction p with
  | nil =>
    intro dest x h
    simp [lookupPath] at h
    rw [h]
    rfl
  | cons a p ih =>
    intro dest x h
    cases dest with
    | file m c => exact absurd h (by simp [lookupPath])
    | symlink t => exact absurd h (by simp [lookupPath])
    | dir m cs =>
      cases hf : findChild cs a with
      | none =>
        rw [lookupPath_cons_dir, hf] at h
        exact absurd h (by simp)
      | some c =>
        rw [lookupPath_cons_dir_found m cs a p c hf] at h
        rw [updatePath_cons_dir_found m cs a p x c hf, ih c x h,
          setChild_eq_self cs a c hf]

theorem mergeNode_none (n : FSNode) : mergeNode none n = n := by
  cases n <;> rfl

theorem entriesFresh_nil_left : ∀ cs, entriesFresh .nil cs = true := by
  intro cs
  induction cs using entriesInd with
  | hnil => rfl
  | hcons a c r ih =>
    rw [show entriesFresh FSEntries.nil (.cons a c r)
        = ((findChild FSEntries.nil a).isNone && entriesFresh FSEntries.nil r) from rfl]
    rw [ih]
    rfl

theorem entriesFresh_cat (cs0 : FSEntries) (name : String) (y : FSNode) :
    ∀ rest, entriesFresh cs0 rest = true → hasName rest name = false →
      entriesFresh (catEntries cs0 (.cons name y .nil)) rest = true := by
  intro rest
  induction rest using entriesInd with
  | hnil => intro _ _; rfl
  | hcons a c r ih =>
    intro hf hn
    rw [show entriesFresh cs0 (.cons a c r)
        = ((findChild cs0 a).isNone && entriesFresh cs0 r) from rfl,
      Bool.and_eq_true] at hf
    rw [show hasName (.cons a c r) name
        = (decide (a = name) || hasName r name) from rfl] at hn
    simp only [Bool.or_eq_false_iff, decide_eq_false_iff_not] at hn
    rw [show entriesFresh (catEntries cs0 (.cons name y .nil)) (.cons a c r)
        = ((findChild (catEntries cs0 (.cons name y .nil)) a).isNone
           && entriesFresh (catEntries cs0 (.cons name y .nil)) r) from rfl]
    rw [findChild_cat_none cs0 _ a (Option.isNone_iff_eq_none.mp hf.1)]
    rw [show findChild (FSEntries.cons name y .nil) a
        = (if name = a then some y else none) from rfl]
    rw [if_neg (fun hh => hn.1 hh.symm)]
    rw [ih hf.2 hn.2]
    rfl

theorem extractWrite_cons_dir_found (defMode m mc : Nat) (cs csc : FSEntries)
    (a b : String) (rest : List String) (n : FSNode)
    (hf : findChild cs a = some (.dir mc csc)) :
    extractWrite defMode (.dir m cs) (a :: b :: rest) n
      = match extractWrite defMode (.dir mc csc) (b :: rest) n with
        | some d2 => some (FSNode.dir m (setChild cs a d2))
        | none => none := by
  show (match (match findChild cs a with
               | some (FSNode.dir mc csc) => some (FSNode.dir mc csc)
               | some _ => none
               | none => some (FSNode.dir defMode FSEntries.nil)) with
        | some dd =>
          match extractWrite defMode dd (b :: rest) n with
          | some d2 => some (FSNode.dir m (setChild cs a d2))
          | none => none
        | none => none)
      = (match extractWrite defMode (FSNode.dir mc csc) (b :: rest) n with
         | some d2 => some (FSNode.dir m (setChild cs a d2))
         | none => none)
  rw [hf]

theorem extractWrite_exists (defMode : Nat) (p : List String) :
    ∀ (dest : FSNode) (m0 : Nat) (cs0 : FSEntries) (name : String) (n : FSNode),
      lookupPath dest p = some (.dir m0 cs0) →
      extractWrite defMode dest (p ++ [name]) n
        = some (updatePath dest p
            (.dir m0 (setChild cs0 name (mergeNode (findChild cs0 name) n)))) := by
  induction p with
  | nil =>
    intro dest m0 cs0 name n h
    simp [lookupPath] at h
    subst h
    rfl
  | cons a p ih =>
    intro dest m0 cs0 name n h
    cases dest with
    | file fm fc => exact absurd h (by simp [lookupPath])
    | symlink t => exact absurd h (by simp [lookupPath])
    | dir m cs =>
      cases hf : findChild cs a with
      | none =>
        rw [lookupPath_cons_dir, hf] at h
        exact absurd h (by simp)
      | some c =>
        rw [lookupPath_cons_dir_found m cs a p c hf] at h
        have hc : ∃ mc csc, c = FSNode.dir mc csc := by
          cases p with
          | nil =>
            simp [lookupPath] at h
            exact ⟨m0, cs0, h⟩
          | cons b p2 =>
            cases c with
            | dir mc csc => exact ⟨mc, csc, rfl⟩
            | file _ _ => exact absurd h (by simp [lookupPath])
            | symlink _ => exact absurd h (by simp [lookupPath])
        obtain ⟨mc, csc, rfl⟩ := hc
        rw [List.cons_append]
        rcases hpn : p ++ [name] with _ | ⟨b, rest⟩
        · exact absurd hpn (by simp)
        · rw [extractWrite_cons_dir_found defMode m mc cs csc a b rest n hf]
          rw [← hpn, ih (.dir mc csc) m0 cs0 name n h]
          rw [updatePath_cons_dir_found m cs a p
            (.dir m0 (setChild cs0 name (mergeNode (findChild cs0 name) n)))
            (.dir mc csc) hf]

theorem walkChildren_no_descent (root : FSNode) :
    ∀ (fuel : Nat) (p q : List String) (cs : FSEntries)
      (vs : List (List String × FSNode)),
      noDirSymEntries root q cs = true →
      walkChildren root fuel p q cs = some vs →
      vs = walkNSList p cs := by
  intro fuel
  induction fuel with
  | zero =>
    intro p q cs vs hns hw
    exact absurd hw (by simp [walkChildren])
  | succ n ih =>
    intro p q cs vs hns hw
    cases cs with
    | nil =>
      have hw2 : (some [] : Option (List (List String × FSNode))) = some vs := hw
      simp at hw2
      rw [hw2]
      rfl
    | cons name c rest =>
      rw [show noDirSymEntries root q (.cons name c rest)
          = (noDirSymNode root q name c && noDirSymEntries root q rest) from rfl,
        Bool.and_eq_true] at hns
      obtain ⟨hns1, hns2⟩ := hns
      cases c with
      | file fm fc =>
        have hw2 : (match walkChildren root n p q rest with
                    | none => none
                    | some tail =>
                      some ((p ++ [name], FSNode.file fm fc) :: [] ++ tail)) = some vs := hw
        cases htail : walkChildren root n p q rest with
        | none =>
          rw [htail] at hw2
          exact absurd hw2 (by simp)
        | some tail =>
          rw [htail] at hw2
          simp at hw2
          subst hw2
          have htt := ih p q rest tail hns2 htail
          rw [show walkNSList p (.cons name (FSNode.file fm fc) rest)
              = (p ++ [name], FSNode.file fm fc)
                :: walkNSNode (p ++ [name]) (FSNode.file fm fc) ++ walkNSList p rest from rfl]
          rw [← htt]
          rfl
      | symlink t =>
        have hfalse : symlinkResolvesToDir root q t = false := by
          simpa [noDirSymNode] using hns1
        have hw2 : (match (match resolvePath q t with
                           | some qd =>
                             match lookupPath root qd with
                             | some (.dir _ cs2) =>
                               walkChildren root n (p ++ [name]) qd cs2
                             | _ => some []
                           | none => some []) with
                    | none => none
                    | some s =>
                      match walkChildren root n p q rest with
                      | none => none
                      | some tail =>
                        some ((p ++ [name], FSNode.symlink t) :: s ++ tail)) = some vs := hw
        have hsub : (match resolvePath q t with
                     | some qd =>
                       match lookupPath root qd with
                       | some (.dir _ cs2) =>
                         walkChildren root n (p ++ [name]) qd cs2
                       | _ => some []
                     | none => some [])
            = (some [] : Option (List (List String × FSNode))) := by
          cases hr : resolvePath q t with
          | none => rfl
          | some qd =>
            show (match lookupPath root qd with
                  | some (.dir _ cs2) =>
                    walkChildren root n (p ++ [name]) qd cs2
                  | _ => some [])
                = (some [] : Option (List (List String × FSNode)))
            cases hl : lookupPath root qd with
            | none => rfl
            | some x =>
              cases x with
              | dir dm dcs =>
                exfalso
                rw [show symlinkResolvesToDir root q t
                    = (match resolvePath q t with
                       | some qd =>
                         match lookupPath root qd with
                         | some (.dir _ _) => true
                         | _ => false
                       | none => false) from rfl, hr] at hfalse
                have hfalse2 : (match lookupPath root qd with
                                | some (FSNode.dir _ _) => true
                                | _ => false) = false := hfalse
                rw [hl] at hfalse2
                simp at hfalse2
              | file _ _ => rfl
              | symlink _ => rfl
        rw [hsub] at hw2
        cases htail : walkChildren root n p q rest with
        | none =>
          rw [htail] at hw2
          exact absurd hw2 (by simp)
        | some tail =>
          rw [htail] at hw2
          simp at hw2
          subst hw2
          have htt := ih p q rest tail hns2 htail
          rw [show walkNSList p (.cons name (FSNode.symlink t) rest)
              = (p ++ [name], FSNode.symlink t)
                :: walkNSNode (p ++ [name]) (FSNode.symlink t) ++ walkNSList p rest from rfl]
          rw [← htt]
          rfl
      | dir dm dcs =>
        have hnsd : noDirSymEntries root (q ++ [name]) dcs = true := by
          simpa [noDirSymNode] using hns1
        have hw2 : (match walkChildren root n (p ++ [name]) (q ++ [name]) dcs with
                    | none => none
                    | some s =>
                      match walkChildren root n p q rest with
                      | none => none
                      | some tail =>
                        some ((p ++ [name], FSNode.dir dm dcs) :: s ++ tail)) = some vs := hw
        cases hs : walkChildren root n (p ++ [name]) (q ++ [name]) dcs with
        | none =>
          rw [hs] at hw2
          exact absurd hw2 (by simp)
        | some s =>
          rw [hs] at hw2
          cases htail : walkChildren root n p q rest with
          | none =>
            rw [htail] at hw2
            exact absurd hw2 (by simp)
          | some tail =>
            rw [htail] at hw2
            simp at hw2
            subst hw2
            have hss := ih (p ++ [name]) (q ++ [name]) dcs s hnsd hs
            have htt := ih p q rest tail hns2 htail
            rw [show walkNSList p (.cons name (FSNode.dir dm dcs) rest)
                = (p ++ [name], FSNode.dir dm dcs)
                  :: walkNSNode (p ++ [name]) (FSNode.dir dm dcs) ++ walkNSList p rest from rfl]
            rw [show walkNSNode (p ++ [name]) (FSNode.dir dm dcs)
                = walkNSList (p ++ [name]) dcs from rfl]
            rw [← htt, ← hss]
            rfl

theorem extractAll_nil (defMode : Nat) (d : FSNode) : extractAll defMode d [] = d := rfl

theorem extractAll_cons (defMode : Nat) (d : FSNode) (e : ArchEntry) (l : List ArchEntry) :
    extractAll defMode d (e :: l) = extractAll defMode (extractEntry defMode d e) l := rfl

theorem extractAll_append (defMode : Nat) (d : FSNode) (l1 l2 : List ArchEntry) :
    extractAll defMode d (l1 ++ l2)
      = extractAll defMode (extractAll defMode d l1) l2 := by
  simp [extractAll, List.foldl_append]

theorem extractEntry_fresh (defMode : Nat) (dest : FSNode) (p : List String)
    (m0 : Nat) (cs0 : FSEntries) (name : String) (e : ArchEntry)
    (hp : e.path = p ++ [name])
    (hlk : lookupPath dest p = some (.dir m0 cs0))
    (hfr1 : findChild cs0 name = none) :
    extractEntry defMode dest e
      = updatePath dest p (.dir m0 (catEntries cs0 (.cons name (nodeOfEntry e) .nil))) := by
  rw [show extractEntry defMode dest e
      = (match extractWrite defMode dest e.path (nodeOfEntry e) with
         | some d => d
         | none => dest) from rfl]
  rw [hp, extractWrite_exists defMode p dest m0 cs0 name _ hlk, hfr1, mergeNode_none,
    setChild_none_eq_cat cs0 name _ hfr1]

theorem updatePath_child_fresh (dest : FSNode) (p : List String) (m0 : Nat)
    (cs0 : FSEntries) (name : String) (z y : FSNode)
    (hlk : lookupPath dest p = some (.dir m0 cs0))
    (hfr1 : findChild cs0 name = none) :
    updatePath (updatePath dest p (.dir m0 (catEntries cs0 (.cons name z .nil))))
        (p ++ [name]) y
      = updatePath dest p (.dir m0 (catEntries cs0 (.cons name y .nil))) := by
  have hlk1 : lookupPath (updatePath dest p (.dir m0 (catEntries cs0 (.cons name z .nil)))) p
      = some (.dir m0 (catEntries cs0 (.cons name z .nil))) :=
    lookupPath_updatePath p dest _ _ hlk
  have hfC : findChild (catEntries cs0 (.cons name z .nil)) name = some z := by
    rw [findChild_cat_none cs0 _ name hfr1]
    simp [findChild]
  rw [updatePath_append p _ _ [name] y hlk1]
  rw [updatePath_cons_dir_found m0 _ name [] y z hfC]
  rw [show updatePath z [] y = y from rfl]
  rw [setChild_cat_here cs0 FSEntries.nil name z y hfr1]
  exact updatePath_collapse p dest _ _ _ hlk

theorem lookupPath_child_fresh (dest : FSNode) (p : List String) (m0 : Nat)
    (cs0 : FSEntries) (name : String) (z : FSNode)
    (hlk : lookupPath dest p = some (.dir m0 cs0))
    (hfr1 : findChild cs0 name = none) :
    lookupPath (updatePath dest p (.dir m0 (catEntries cs0 (.cons name z .nil))))
        (p ++ [name])
      = some z := by
  have hlk1 : lookupPath (updatePath dest p (.dir m0 (catEntries cs0 (.cons name z .nil)))) p
      = some (.dir m0 (catEntries cs0 (.cons name z .nil))) :=
    lookupPath_updatePath p dest _ _ hlk
  have hfC : findChild (catEntries cs0 (.cons name z .nil)) name = some z := by
    rw [findChild_cat_none cs0 _ name hfr1]
    simp [findChild]
  have h1 := lookupPath_append p
    (updatePath dest p (.dir m0 (catEntries cs0 (.cons name z .nil)))) [name]
  rw [hlk1] at h1
  rw [h1]
  show lookupPath (FSNode.dir m0 (catEntries cs0 (.cons name z .nil))) [name] = some z
  rw [lookupPath_cons_dir_found m0 _ name [] z hfC]
  rfl

theorem extractAll_walkNSList (defMode : Nat) :
    ∀ (N : Nat) (cs : FSEntries), sizeOf cs ≤ N →
    ∀ (p : List String) (dest : FSNode) (m0 : Nat) (cs0 : FSEntries),
      wfEntries cs = true →
      lookupPath dest p = some (.dir m0 cs0) →
      entriesFresh cs0 cs = true →
      extractAll defMode dest ((walkNSList p cs).map (fun pc => entryOf pc.1 pc.2))
        = updatePath dest p (.dir m0 (catEntries cs0 cs)) := by
  intro N
  induction N with
  | zero =>
    intro cs hcs
    exfalso
    cases cs with
    | nil => simp at hcs
    | cons a c r =>
      simp at hcs
  | succ N ihN =>
    intro cs hcs p dest m0 cs0 hwf hlk hfresh
    cases cs with
    | nil =>
      rw [show walkNSList p FSEntries.nil = [] from rfl, List.map_nil, extractAll_nil,
        catEntries_nil cs0]
      exact (updatePath_self p dest _ hlk).symm
    | cons name c rest =>
      have hwf2 := hwf
      rw [show wfEntries (.cons name c rest)
          = (wfNode c && ! hasName rest name && wfEntries rest) from rfl,
        Bool.and_eq_true, Bool.and_eq_true] at hwf2
      obtain ⟨⟨hwfc, hnameb⟩, hwfr⟩ := hwf2
      have hname : hasName rest name = false := by simpa using hnameb
      have hfresh2 := hfresh
      rw [show entriesFresh cs0 (.cons name c rest)
          = ((findChild cs0 name).isNone && entriesFresh cs0 rest) from rfl,
        Bool.and_eq_true] at hfresh2
      obtain ⟨hfr1b, hfr2⟩ := hfresh2
      have hfr1 : findChild cs0 name = none := Option.isNone_iff_eq_none.mp hfr1b
      have hspec : sizeOf (FSEntries.cons name c rest)
          = 1 + sizeOf name + sizeOf c + sizeOf rest := by simp
      have hcs2 := hcs
      rw [hspec] at hcs2
      have hszr : sizeOf rest ≤ N := by omega
      rw [show walkNSList p (.cons name c rest)
          = (p ++ [name], c) :: walkNSNode (p ++ [name]) c ++ walkNSList p rest from rfl]
      simp only [List.map_cons, List.map_append]
      rw [extractAll_append, extractAll_cons]
      cases c with
      | file fm fc =>
        have hfm : fm < 512 := of_decide_eq_true (by
          rw [show wfNode (FSNode.file fm fc) = decide (fm < 512) from rfl] at hwfc
          exact hwfc)
        have hnode : nodeOfEntry (entryOf (p ++ [name]) (FSNode.file fm fc))
            = FSNode.file fm fc := by
          rw [show nodeOfEntry (entryOf (p ++ [name]) (FSNode.file fm fc))
              = FSNode.file (permsToMode fm) fc from rfl, permsToMode_of_lt fm hfm]
        have hstep := extractEntry_fresh defMode dest p m0 cs0 name
          (entryOf (p ++ [name]) (FSNode.file fm fc)) rfl hlk hfr1
        rw [hnode] at hstep
        rw [hstep]
        rw [show walkNSNode (p ++ [name]) (FSNode.file fm fc)
            = ([] : List (List String × FSNode)) from rfl, List.map_nil, extractAll_nil]
        have hrest := ihN rest hszr p _ m0
          (catEntries cs0 (.cons name (FSNode.file fm fc) .nil)) hwfr
          (lookupPath_updatePath p dest _ _ hlk)
          (entriesFresh_cat cs0 name _ rest hfr2 hname)
        rw [hrest, updatePath_collapse p dest _ _ _ hlk, catEntries_assoc]
        rfl
      | symlink t =>
        have hnode : nodeOfEntry (entryOf (p ++ [name]) (FSNode.symlink t))
            = FSNode.symlink t := rfl
        have hstep := extractEntry_fresh defMode dest p m0 cs0 name
          (entryOf (p ++ [name]) (FSNode.symlink t)) rfl hlk hfr1
        rw [hnode] at hstep
        rw [hstep]
        rw [show walkNSNode (p ++ [name]) (FSNode.symlink t)
            = ([] : List (List String × FSNode)) from rfl, List.map_nil, extractAll_nil]
        have hrest := ihN rest hszr p _ m0
          (catEntries cs0 (.cons name (FSNode.symlink t) .nil)) hwfr
          (lookupPath_updatePath p dest _ _ hlk)
          (entriesFresh_cat cs0 name _ rest hfr2 hname)
        rw [hrest, updatePath_collapse p dest _ _ _ hlk, catEntries_assoc]
        rfl
      | dir dm dcs =>
        have hda : (decide (dm < 512) && wfEntries dcs) = true := by
          rw [show wfNode (FSNode.dir dm dcs)
              = (decide (dm < 512) && wfEntries dcs) from rfl] at hwfc
          exact hwfc
        rw [Bool.and_eq_true] at hda
        have hdm : dm < 512 := of_decide_eq_true hda.1
        have hwfdcs : wfEntries dcs = true := hda.2
        have hspec2 : sizeOf (FSNode.dir dm dcs) = 1 + sizeOf dm + sizeOf dcs := by simp
        have hszdcs : sizeOf dcs ≤ N := by omega
        have hnode : nodeOfEntry (entryOf (p ++ [name]) (FSNode.dir dm dcs))
            = FSNode.dir dm FSEntries.nil := by
          rw [show nodeOfEntry (entryOf (p ++ [name]) (FSNode.dir dm dcs))
              = FSNode.dir (permsToMode dm) FSEntries.nil from rfl, permsToMode_of_lt dm hdm]
        have hstep := extractEntry_fresh defMode dest p m0 cs0 name
          (entryOf (p ++ [name]) (FSNode.dir dm dcs)) rfl hlk hfr1
        rw [hnode] at hstep
        rw [hstep]
        rw [show walkNSNode (p ++ [name]) (FSNode.dir dm dcs)
            = walkNSList (p ++ [name]) dcs from rfl]
        have hinner := ihN dcs hszdcs (p ++ [name])
          (updatePath dest p
            (.dir m0 (catEntries cs0 (.cons name (FSNode.dir dm FSEntries.nil) .nil))))
          dm FSEntries.nil hwfdcs
          (lookupPath_child_fresh dest p m0 cs0 name _ hlk hfr1)
          (entriesFresh_nil_left dcs)
        rw [hinner]
        rw [show catEntries FSEntries.nil dcs = dcs from rfl]
        rw [updatePath_child_fresh dest p m0 cs0 name _ _ hlk hfr1]
        have hrest := ihN rest hszr p _ m0
          (catEntries cs0 (.cons name (FSNode.dir dm dcs) .nil)) hwfr
          (lookupPath_updatePath p dest _ _ hlk)
          (entriesFresh_cat cs0 name _ rest hfr2 hname)
        rw [hrest, updatePath_collapse p dest _ _ _ hlk, catEntries_assoc]
        rfl

/-- C4 amended.  Restricted to well-formed trees (distinct sibling names,
9-bit modes) in which no symlink resolves to a directory — excluding both the
directory-symlink cycles on which the walk diverges (the spec's flagged gap)
and the directory symlinks whose contents the walker would additionally
descend into: whenever the pack walk terminates, restoring its entry
sequence into a fresh destination directory reproduces the source tree
exactly — relative structure, file contents byte for byte, 9-bit permission
modes, and symlink targets. -/
theorem c4_amended_roundtrip (m d0 defMode fuel : Nat) (cs : FSEntries)
    (es : List ArchEntry)
    (hwf : wfEntries cs = true)
    (hns : noDirSymEntries (.dir m cs) [] cs = true)
    (hpack : packEntries (.dir m cs) fuel = some es) :
    extractAll defMode (.dir d0 .nil) es = .dir d0 cs := by
  unfold packEntries at hpack
  rw [show walkTree (FSNode.dir m cs) fuel
      = walkChildren (FSNode.dir m cs) fuel [] [] cs from rfl] at hpack
  cases hw : walkChildren (FSNode.dir m cs) fuel [] [] cs with
  | none =>
    rw [hw] at hpack
    exact absurd hpack (by simp)
  | some vs =>
    rw [hw] at hpack
    simp at hpack
    have hvs := walkChildren_no_descent (FSNode.dir m cs) fuel [] [] cs vs hns hw
    subst hvs
    subst hpack
    have hmain := extractAll_walkNSList defMode (sizeOf cs) cs le_rfl []
      (.dir d0 .nil) d0 .nil hwf rfl (entriesFresh_nil_left cs)
    rw [hmain]
    rfl

/-- Witness for the amended round trip: the spec's own section-8 scenario
(a directory with a file, an empty directory, a working file symlink and a
broken symlink) packs and restores to an identical tree. -/
theorem c4_amended_roundtrip_witness :
    extractAll 0o755 (.dir 0o700 .nil)
      [⟨["a"], .directory, 0o755, 0, none, []⟩,
       ⟨["a", "b.txt"], .regular, 0o644, 2, none, [104, 105]⟩,
       ⟨["empty"], .directory, 0o755, 0, none, []⟩,
       ⟨["link"], .symlink, 0o777, 0, some "a/b.txt", []⟩,
       ⟨["broken"], .symlink, 0o777, 0, some "missing", []⟩]
      = .dir 0o700
          (.cons "a" (.dir 0o755 (.cons "b.txt" (.file 0o644 [104, 105]) .nil))
            (.cons "empty" (.dir 0o755 .nil)
              (.cons "link" (.symlink "a/b.txt")
                (.cons "broken" (.symlink "missing") .nil)))) :=
  c4_amended_roundtrip 0o755 0o700 0o755 8
    (.cons "a" (.dir 0o755 (.cons "b.txt" (.file 0o644 [104, 105]) .nil))
      (.cons "empty" (.dir 0o755 .nil)
        (.cons "link" (.symlink "a/b.txt")
          (.cons "broken" (.symlink "missing") .nil))))
    [⟨["a"], .directory, 0o755, 0, none, []⟩,
     ⟨["a", "b.txt"], .regular, 0o644, 2, none, [104, 105]⟩,
     ⟨["empty"], .directory, 0o755, 0, none, []⟩,
     ⟨["link"], .symlink, 0o777, 0, some "a/b.txt", []⟩,
     ⟨["broken"], .symlink, 0o777, 0, some "missing", []⟩]
    (by rfl) (by rfl) (by rfl)

end ArchStatic
